import Mathlib

/-!
# Go-Docker: the `people` CRUD service of `main.go`

A shallow embedding of `src/main.go`: the `Person` record, the five handlers
(`createPerson`, `getPeople`, `getPerson`, `updatePerson`, `deletePerson`) and the two
routes registered in `main`, followed by the properties established about them.

What lies outside `main.go` is represented as follows.

* The `people` table (PostgreSQL behind `database/sql`) is a list of rows in storage order
  together with the last value handed out by the id sequence of the `serial` column.  A
  statement can fail for reasons the handler cannot see (a value the engine rejects, a
  column that does not scan, a connection lost before or while the result is read); such a
  failure is an explicit input, `Fault`, of every storage operation.
* A request body is represented by the `Person` which `json.Decoder.Decode` leaves in the
  handler's variable (decode errors are discarded by the handlers, absent fields keep their
  zero value).
* A response body written by `json.Encoder.Encode` is represented by the JSON document
  (`Json`), not by its text.
* `strconv.Atoi` is modelled for a 64-bit `int`, fast path and `ParseInt` path.
* The default `http.ServeMux` that `main` serves through is represented with the two
  patterns of `main`: it answers a path that is not in canonical form with a redirect to
  the canonical path (except for CONNECT), and otherwise hands the request to the function
  of the matching pattern (`"/people"` matches that path, `"/people/"` every path it is a
  prefix of).  The path of a request is `r.URL.Path`, taken without percent-escapes.
-/

namespace GoDocker

/-! ## Strings, slices, JSON documents -/

/-- A Go string is a sequence of bytes. -/
abbrev GoString := List UInt8

/-- The bytes of an ASCII literal. -/
def ascii (s : String) : GoString := s.toList.map (fun c => c.toNat.toUInt8)

/-- The slice expression `s[lo:]`; `none` is the run-time panic
"slice bounds out of range". -/
def sliceFrom (s : GoString) (lo : Nat) : Option GoString :=
  if lo ≤ s.length then some (s.drop lo) else none

/-- The record `type Person struct { ID int; Name string; Email string }`. -/
structure Person where
  ID : Int
  Name : String
  Email : String
deriving DecidableEq, Repr

/-- The zero value of `Person` (`var person Person`). -/
def Person.zero : Person := ⟨0, "", ""⟩

/-- A value of type `[]Person`: `none` is the nil slice, `some xs` a non-nil slice. -/
abbrev PersonSlice := Option (List Person)

/-- The built-in `append(people, person)`. -/
def goAppend : PersonSlice → Person → PersonSlice
  | none, p => some [p]
  | some xs, p => some (xs ++ [p])

/-- The elements of a slice, in order. -/
def sliceElems : PersonSlice → List Person
  | none => []
  | some xs => xs

/-- The JSON documents the two `Encode` calls of the handlers can write. -/
inductive Json where
  | null
  | object (p : Person)
  | array (ps : List Person)
deriving DecidableEq, Repr

/-- The document of `Encode(person)`: the object with the fields `id`, `name`, `email`. -/
def encodePerson (p : Person) : Json := Json.object p

/-- The document of `Encode(people)` for a `[]Person`: `encoding/json` writes a nil slice as `null` and a
non-nil slice as an array. -/
def encodePeople : PersonSlice → Json
  | none => Json.null
  | some xs => Json.array xs

/-- Whether a JSON document is an array. -/
def Json.isArray : Json → Bool
  | Json.array _ => true
  | _ => false

/-! ## Requests and responses -/

/-- The parts of `*http.Request` the handlers read: `r.Method`, `r.URL.Path` and the
`Person` the body decodes to. -/
structure Request where
  Method : String
  Path : GoString
  Body : Person
deriving DecidableEq, Repr

/-- What is written after the status line: nothing, a plain message, a JSON document, or
the path the `Location` header of a redirect points to (with the short note that
`http.Redirect` adds for GET). -/
inductive Body where
  | empty
  | text (msg : String)
  | json (doc : Json)
  | redirect (location : GoString)
deriving DecidableEq, Repr

/-- The response a handler leaves in the `http.ResponseWriter`. -/
structure Response where
  status : Nat
  contentType : Option String
  body : Body
deriving DecidableEq, Repr

/-- The call `http.Error(w, msg, code)`. -/
def httpError (msg : String) (code : Nat) : Response :=
  ⟨code, some "text/plain; charset=utf-8", Body.text msg⟩

/-- The call `http.NotFound(w, r)`. -/
def httpNotFound : Response := httpError "404 page not found" 404

/-- Setting `Content-Type: application/json` and encoding a document: the status is the
implicit 200. -/
def jsonResponse (doc : Json) : Response :=
  ⟨200, some "application/json", Body.json doc⟩

/-- The answer of `http.RedirectHandler(location, http.StatusMovedPermanently)`: the content
type is set for GET and HEAD only. -/
def httpRedirect (method : String) (location : GoString) : Response :=
  ⟨301, if method = "GET" ∨ method = "HEAD" then some "text/html; charset=utf-8" else none,
    Body.redirect location⟩

/-- The call `w.WriteHeader(http.StatusNoContent)` with nothing written. -/
def noContent : Response := ⟨204, none, Body.empty⟩

/-! ## `strconv.Atoi` -/

/-- The two errors of `strconv`. -/
inductive NumError where
  | ErrSyntax
  | ErrRange
deriving DecidableEq, Repr

deriving instance DecidableEq for Except

/-- The byte is one of `'0'`..`'9'` (Go: `ch -= '0'; ch > 9` fails otherwise). -/
def isDigit (c : UInt8) : Bool := decide (48 ≤ c.toNat) && decide (c.toNat ≤ 57)

/-- The value of a digit byte. -/
def digitVal (c : UInt8) : Nat := c.toNat - 48

/-- The largest `uint64`. -/
def maxUint64 : Nat := 2 ^ 64 - 1

/-- The loop of `ParseUint(s, 10, 64)`: a byte that is no digit is a syntax error, a value
that leaves `uint64` a range error. -/
def parseUintLoop : List UInt8 → Nat → Except NumError Nat
  | [], n => Except.ok n
  | c :: cs, n =>
    if isDigit c = false then Except.error NumError.ErrSyntax
    else if n ≥ maxUint64 / 10 + 1 then Except.error NumError.ErrRange
    else if n * 10 + digitVal c > maxUint64 then Except.error NumError.ErrRange
    else parseUintLoop cs (n * 10 + digitVal c)

/-- The function `ParseUint(s, 10, 64)`. -/
def ParseUint (s : GoString) : Except NumError Nat :=
  if s = [] then Except.error NumError.ErrSyntax else parseUintLoop s 0

/-- The function `ParseInt(s, 10, 0)` on a 64-bit platform. -/
def ParseInt (s : GoString) : Except NumError Int :=
  match s with
  | [] => Except.error NumError.ErrSyntax
  | c :: cs =>
    let neg : Bool := c = 45
    let rest : GoString := if c = 43 ∨ c = 45 then cs else c :: cs
    match ParseUint rest with
    | Except.error e => Except.error e
    | Except.ok un =>
      if neg = false ∧ un ≥ 2 ^ 63 then Except.error NumError.ErrRange
      else if neg = true ∧ un > 2 ^ 63 then Except.error NumError.ErrRange
      else Except.ok (if neg then - (un : Int) else (un : Int))

/-- The digit loop of the fast path of `Atoi`. -/
def atoiFastLoop : List UInt8 → Int → Except NumError Int
  | [], n => Except.ok n
  | c :: cs, n =>
    if isDigit c = false then Except.error NumError.ErrSyntax
    else atoiFastLoop cs (n * 10 + (digitVal c : Int))

/-- The function `strconv.Atoi` for a 64-bit `int`: texts of 1 to 18 bytes take the fast path, the
others go through `ParseInt`. -/
def Atoi (s : GoString) : Except NumError Int :=
  match s with
  | [] => ParseInt s
  | c :: cs =>
    if s.length < 19 then
      let rest : GoString := if c = 45 ∨ c = 43 then cs else c :: cs
      if rest.length < 1 then Except.error NumError.ErrSyntax
      else
        match atoiFastLoop rest 0 with
        | Except.error e => Except.error e
        | Except.ok n => Except.ok (if c = 45 then - n else n)
    else ParseInt s

/-- The value of a digit text read from an accumulator `n`. -/
def decimalFrom (n : Nat) (ds : List UInt8) : Nat :=
  ds.foldl (fun acc c => acc * 10 + digitVal c) n

/-- The value of a digit text. -/
def decimalValue (ds : List UInt8) : Nat := decimalFrom 0 ds

/-- The text is a decimal integer in the range of a 64-bit `int`: an optional sign, then
one or more digits, whose value lies in `[-2^63, 2^63 - 1]`. -/
def IsDecimalInt64 (s : GoString) : Prop :=
  ∃ sign ds : GoString, s = sign ++ ds ∧ (sign = [] ∨ sign = [43] ∨ sign = [45]) ∧
    ds ≠ [] ∧ (∀ c ∈ ds, isDigit c = true) ∧
    (if sign = [45] then decimalValue ds ≤ 2 ^ 63 else decimalValue ds ≤ 2 ^ 63 - 1)

/-- The integer a decimal text with its sign denotes. -/
def signedValue (sign ds : GoString) : Int :=
  if sign = [45] then - (decimalValue ds : Int) else (decimalValue ds : Int)

/-- The byte of a decimal digit. -/
def digitByte (d : Nat) : UInt8 := (48 + d).toUInt8

/-- The decimal text of a natural number, most significant digit first. -/
def natText (n : Nat) : GoString :=
  if n = 0 then [48] else (Nat.digits 10 n).reverse.map digitByte

/-- The decimal text of an integer as a client writes it into the path `/people/{id}`
(what `strconv.Itoa` produces): a minus sign for a negative number, then the digits. -/
def Itoa (i : Int) : GoString :=
  if i < 0 then 45 :: natText i.natAbs else natText i.natAbs

/-! ## The `people` table -/

/-- The `people` table: its rows in storage order and the last value of the sequence that
feeds the `serial` column `id`. -/
structure Db where
  rows : List Person
  seq : Nat
deriving DecidableEq, Repr

/-- The primary key constraint: no two rows share an id. -/
def UniqueIds (db : Db) : Prop := (db.rows.map Person.ID).Nodup

instance (db : Db) : Decidable (UniqueIds db) := by
  unfold UniqueIds; infer_instance

/-- A failure that does not depend on the table: `statement` is a statement that fails
before it has any effect (a value the engine rejects, no connection), `scan` a returned row
that `Scan` cannot read, and `stream k` a connection that delivers `k` result rows and
breaks at the next read, be it of a row or of the end of the result.  `Exec` reads no rows:
`scan` and `stream` do not affect it. -/
inductive Fault where
  | none
  | statement
  | scan
  | stream (delivered : Nat)
deriving DecidableEq, Repr

/-- Whether the connection breaks before a result of `m` rows is read to its end. -/
def streamBreaks (fault : Fault) (m : Nat) : Bool :=
  match fault with
  | Fault.stream k => decide (k ≤ m)
  | _ => false

/-- The errors a handler distinguishes: `sql.ErrNoRows` and every other one. -/
inductive SqlError where
  | ErrNoRows
  | other
deriving DecidableEq, Repr

/-- The statement `INSERT INTO people (name, email) VALUES ($1, $2) RETURNING id` with the
scan of the returned id: the id is the next value of the sequence; a row that already has
it violates the primary key and the statement fails (the sequence stays advanced); when
only the reading of the one returned row fails the row is stored all the same. -/
def insertReturningId (db : Db) (fault : Fault) (name email : String) :
    Except SqlError Int × Db :=
  match fault with
  | Fault.statement => (Except.error SqlError.other, db)
  | _ =>
    let id : Int := (db.seq : Int) + 1
    if id ∈ db.rows.map Person.ID then
      (Except.error SqlError.other, { db with seq := db.seq + 1 })
    else
      (if fault = Fault.scan ∨ streamBreaks fault 1 = true then Except.error SqlError.other
        else Except.ok id,
        { rows := db.rows ++ [⟨id, name, email⟩], seq := db.seq + 1 })

/-- The query `SELECT * FROM people`: the rows in storage order, which `rows.Next()` then
delivers one by one (see `scanRows`). -/
def selectAll (db : Db) (fault : Fault) : Except SqlError (List Person) :=
  match fault with
  | Fault.statement => Except.error SqlError.other
  | _ => Except.ok db.rows

/-- The query `SELECT * FROM people WHERE id=$1` through `QueryRow` and `Row.Scan`: a failed
statement or a connection that breaks before the result is read to its end is an error;
otherwise no row is `sql.ErrNoRows`, reported before any column is scanned, and the first
row with the id is scanned. -/
def selectById (db : Db) (fault : Fault) (id : Int) : Except SqlError Person :=
  match fault with
  | Fault.statement => Except.error SqlError.other
  | _ =>
    if streamBreaks fault (db.rows.filter (fun p => decide (p.ID = id))).length = true then
      Except.error SqlError.other
    else
      match db.rows.find? (fun p => decide (p.ID = id)) with
      | none => Except.error SqlError.ErrNoRows
      | some p => if fault = Fault.scan then Except.error SqlError.other else Except.ok p

/-- What `SET name=$1, email=$2 WHERE id=$3` does to one row. -/
def updateRow (name email : String) (id : Int) (p : Person) : Person :=
  if p.ID = id then { p with Name := name, Email := email } else p

/-- The statement `UPDATE people SET name=$1, email=$2 WHERE id=$3` through `Exec`. -/
def execUpdate (db : Db) (fault : Fault) (name email : String) (id : Int) :
    Except SqlError Db :=
  match fault with
  | Fault.statement => Except.error SqlError.other
  | _ => Except.ok { db with rows := db.rows.map (updateRow name email id) }

/-- The statement `DELETE FROM people WHERE id=$1` through `Exec`. -/
def execDelete (db : Db) (fault : Fault) (id : Int) : Except SqlError Db :=
  match fault with
  | Fault.statement => Except.error SqlError.other
  | _ => Except.ok { db with rows := db.rows.filter (fun p => decide (p.ID ≠ id)) }

/-! ## The handlers -/

/-- How a handler call ends: with a response and the table it leaves, or in a panic. -/
inductive Outcome where
  | panic
  | reply (resp : Response) (db : Db)
deriving DecidableEq, Repr

/-- The prefix `"/people/"` whose length the handlers slice the path at. -/
def peoplePrefix : GoString := ascii "/people/"

/-- The handler `createPerson`. -/
def createPerson (db : Db) (fault : Fault) (r : Request) : Outcome :=
  if r.Method ≠ "POST" then
    Outcome.reply (httpError "Method not allowed" 405) db
  else
    let person : Person := r.Body
    match insertReturningId db fault person.Name person.Email with
    | (Except.error _, db') =>
      Outcome.reply (httpError "Failed to execute the query" 500) db'
    | (Except.ok id, db') =>
      Outcome.reply (jsonResponse (encodePerson { person with ID := id })) db'

/-- The loop `for rows.Next() { rows.Scan(...); people = append(people, person) }` after
`n` rows have been delivered: when the connection breaks `rows.Next()` reports false and
the loop ends like at the end of the result, since `rows.Err()` is never read. -/
def scanRows (fault : Fault) : Nat → List Person → PersonSlice → Except SqlError PersonSlice
  | _, [], people => Except.ok people
  | n, row :: rest, people =>
    if fault = Fault.stream n then Except.ok people
    else if fault = Fault.scan then Except.error SqlError.other
    else scanRows fault (n + 1) rest (goAppend people row)

/-- The handler `getPeople`. -/
def getPeople (db : Db) (fault : Fault) (r : Request) : Outcome :=
  if r.Method ≠ "GET" then
    Outcome.reply (httpError "Method not allowed" 405) db
  else
    match selectAll db fault with
    | Except.error _ => Outcome.reply (httpError "Failed to execute the query" 500) db
    | Except.ok rows =>
      match scanRows fault 0 rows none with
      | Except.error _ => Outcome.reply (httpError "Failed to scan the row" 500) db
      | Except.ok people => Outcome.reply (jsonResponse (encodePeople people)) db

/-- The handler `getPerson`. -/
def getPerson (db : Db) (fault : Fault) (r : Request) : Outcome :=
  if r.Method ≠ "GET" then
    Outcome.reply (httpError "Method not allowed" 405) db
  else
    match sliceFrom r.Path peoplePrefix.length with
    | none => Outcome.panic
    | some idStr =>
      match Atoi idStr with
      | Except.error _ => Outcome.reply (httpError "Invalid ID" 400) db
      | Except.ok id =>
        match selectById db fault id with
        | Except.error SqlError.ErrNoRows =>
          Outcome.reply (httpError "Person not found" 404) db
        | Except.error SqlError.other =>
          Outcome.reply (httpError "Failed to scan the row" 500) db
        | Except.ok person => Outcome.reply (jsonResponse (encodePerson person)) db

/-- The handler `updatePerson`. -/
def updatePerson (db : Db) (fault : Fault) (r : Request) : Outcome :=
  if r.Method ≠ "PUT" then
    Outcome.reply (httpError "Method not allowed" 405) db
  else
    match sliceFrom r.Path peoplePrefix.length with
    | none => Outcome.panic
    | some idStr =>
      match Atoi idStr with
      | Except.error _ => Outcome.reply (httpError "Invalid ID" 400) db
      | Except.ok id =>
        let person : Person := r.Body
        match execUpdate db fault person.Name person.Email id with
        | Except.error _ =>
          Outcome.reply (httpError "Failed to execute the query" 500) db
        | Except.ok db' => Outcome.reply (jsonResponse (encodePerson person)) db'

/-- The handler `deletePerson`. -/
def deletePerson (db : Db) (fault : Fault) (r : Request) : Outcome :=
  if r.Method ≠ "DELETE" then
    Outcome.reply (httpError "Method not allowed" 405) db
  else
    match sliceFrom r.Path peoplePrefix.length with
    | none => Outcome.panic
    | some idStr =>
      match Atoi idStr with
      | Except.error _ => Outcome.reply (httpError "Invalid ID" 400) db
      | Except.ok id =>
        match execDelete db fault id with
        | Except.error _ =>
          Outcome.reply (httpError "Failed to execute the query" 500) db
        | Except.ok db' => Outcome.reply noContent db'

/-! ## The routes of `main` -/

/-- The five handlers. -/
inductive Handler where
  | createPerson
  | getPeople
  | getPerson
  | updatePerson
  | deletePerson
deriving DecidableEq, Repr

/-- What a registered function does with a request: call a handler, or answer itself. -/
inductive Route where
  | call (h : Handler)
  | answer (resp : Response)
deriving DecidableEq, Repr

/-- The function registered for the pattern `"/people"`. -/
def peopleRoute (r : Request) : Route :=
  if r.Path = ascii "/people" then
    if r.Method = "POST" then Route.call Handler.createPerson
    else if r.Method = "GET" then Route.call Handler.getPeople
    else Route.answer (httpError "Method not allowed" 405)
  else Route.answer httpNotFound

/-- The function registered for the pattern `"/people/"`. -/
def personRoute (r : Request) : Route :=
  if r.Path.length > peoplePrefix.length then
    if r.Method = "GET" then Route.call Handler.getPerson
    else if r.Method = "PUT" then Route.call Handler.updatePerson
    else if r.Method = "DELETE" then Route.call Handler.deletePerson
    else Route.answer (httpError "Method not allowed" 405)
  else Route.answer httpNotFound

/-- The elements of a path: the texts between its slashes. -/
def splitSlash : GoString → List GoString
  | [] => [[]]
  | c :: cs =>
    if c = 47 then [] :: splitSlash cs
    else
      match splitSlash cs with
      | [] => [[c]]
      | e :: es => (c :: e) :: es

/-- The elements `path.Clean` keeps of a rooted path, last one first: an empty element and
`.` are dropped, `..` removes the element before it, if there is one. -/
def cleanElems : List GoString → List GoString → List GoString
  | [], kept => kept
  | e :: es, kept =>
    if e = [] ∨ e = [46] then cleanElems es kept
    else if e = [46, 46] then cleanElems es kept.tail
    else cleanElems es (e :: kept)

/-- The function `path.Clean` on a rooted path: a slash, then the kept elements joined by
slashes. -/
def pathClean (p : GoString) : GoString :=
  47 :: List.intercalate [47] (cleanElems (splitSlash p) []).reverse

/-- The function `cleanPath` of `net/http`: the canonical form of a request path, rooted,
cleaned by `path.Clean`, with the trailing slash of the path put back. -/
def cleanPath (p : GoString) : GoString :=
  if p = [] then [47]
  else
    let q : GoString := if p.head? = some 47 then p else 47 :: p
    let np := pathClean q
    if q.getLast? = some 47 ∧ np ≠ [47] then np ++ [47] else np

/-- The patterns registered in `main`. -/
def muxPatterns : List GoString := [ascii "/people", ascii "/people/"]

/-- The test `shouldRedirectRLocked` of the mux: the path is no pattern, but the path with
a slash added is one. -/
def shouldRedirect (path : GoString) : Bool :=
  decide (path ∉ muxPatterns) && decide (path ≠ []) &&
    decide (path ++ [47] ∈ muxPatterns) && decide (path.getLast? ≠ some 47)

/-- The handler the mux finds for a path: the function of the pattern `"/people"` for
exactly that path, the function of `"/people/"` for every path that starts with it, and
the mux's own 404 for any other path. -/
def muxHandler (r : Request) (path : GoString) : Route :=
  if path = ascii "/people" then peopleRoute r
  else if peoplePrefix <+: path then personRoute r
  else Route.answer httpNotFound

/-- The default mux with the two patterns of `main` (`ServeMux.ServeHTTP`): the request
target `*` is answered 400; a CONNECT request is matched on its path as it is; for every
other method the path is cleaned, and a path that is not its own canonical form is answered
with a redirect to that form, whatever the pattern. -/
def serveMux (r : Request) : Route :=
  if r.Path = ascii "*" then Route.answer ⟨400, none, Body.empty⟩
  else if r.Method = "CONNECT" then
    if shouldRedirect r.Path = true then
      Route.answer (httpRedirect r.Method (r.Path ++ [47]))
    else muxHandler r r.Path
  else
    let path := cleanPath r.Path
    if shouldRedirect path = true then Route.answer (httpRedirect r.Method (path ++ [47]))
    else if path ≠ r.Path then Route.answer (httpRedirect r.Method path)
    else muxHandler r r.Path

/-- Running a handler. -/
def runHandler : Handler → Db → Fault → Request → Outcome
  | Handler.createPerson => createPerson
  | Handler.getPeople => getPeople
  | Handler.getPerson => getPerson
  | Handler.updatePerson => updatePerson
  | Handler.deletePerson => deletePerson

/-- A run of `createPerson` calls, one after the other: the responses in order and the
table after the last call (a panic, which `createPerson` never raises, would end the
run). -/
def createAll : Db → List (Fault × Request) → List Response × Db
  | db, [] => ([], db)
  | db, (fault, r) :: calls =>
    match createPerson db fault r with
    | Outcome.panic => ([], db)
    | Outcome.reply resp db' =>
      let rest := createAll db' calls
      (resp :: rest.1, rest.2)

/-! ## Properties of `strconv.Atoi` -/

theorem decimalFrom_cons (n : Nat) (c : UInt8) (cs : List UInt8) :
    decimalFrom n (c :: cs) = decimalFrom (n * 10 + digitVal c) cs := rfl

theorem le_decimalFrom (ds : List UInt8) : ∀ n, n ≤ decimalFrom n ds := by
  induction ds with
  | nil => intro n; exact Nat.le_refl n
  | cons c cs ih =>
    intro n
    rw [decimalFrom_cons]
    have := ih (n * 10 + digitVal c)
    omega

theorem atoiFastLoop_digits (ds : List UInt8) (hd : ∀ c ∈ ds, isDigit c = true) :
    ∀ n : Nat, atoiFastLoop ds (n : Int) = Except.ok ((decimalFrom n ds : Nat) : Int) := by
  induction ds with
  | nil => intro n; rfl
  | cons c cs ih =>
    intro n
    have hc : isDigit c = true := hd c (List.mem_cons_self c cs)
    have hcs : ∀ x ∈ cs, isDigit x = true := fun x hx => hd x (List.mem_cons_of_mem c hx)
    have := ih hcs (n * 10 + digitVal c)
    simp only [atoiFastLoop, hc, decimalFrom_cons]
    rw [← this]
    simp

theorem parseUintLoop_digits (ds : List UInt8) (hd : ∀ c ∈ ds, isDigit c = true) :
    ∀ n : Nat, decimalFrom n ds ≤ maxUint64 →
      parseUintLoop ds n = Except.ok (decimalFrom n ds) := by
  induction ds with
  | nil => intro n _; rfl
  | cons c cs ih =>
    intro n hle
    have hc : isDigit c = true := hd c (List.mem_cons_self c cs)
    have hcs : ∀ x ∈ cs, isDigit x = true := fun x hx => hd x (List.mem_cons_of_mem c hx)
    rw [decimalFrom_cons] at hle
    have hmono := le_decimalFrom cs (n * 10 + digitVal c)
    have hmax : maxUint64 = 18446744073709551615 := by decide
    have h1 : ¬ (n ≥ maxUint64 / 10 + 1) := by rw [hmax]; rw [hmax] at hle; omega
    have h2 : ¬ (n * 10 + digitVal c > maxUint64) := by omega
    simp only [parseUintLoop, hc, decimalFrom_cons]
    simp only [h1, h2, if_false]
    simpa using ih hcs (n * 10 + digitVal c) hle




theorem isDigit_ne_sign (c : UInt8) (hc : isDigit c = true) : c ≠ 43 ∧ c ≠ 45 := by
  constructor
  · intro h; subst h; revert hc; decide
  · intro h; subst h; revert hc; decide

theorem ParseUint_digits (ds : GoString) (hne : ds ≠ []) (hd : ∀ c ∈ ds, isDigit c = true)
    (hle : decimalValue ds ≤ maxUint64) : ParseUint ds = Except.ok (decimalValue ds) := by
  unfold ParseUint
  rw [if_neg hne]
  exact parseUintLoop_digits ds hd 0 hle

theorem atoiFastLoop_zero (ds : GoString) (hd : ∀ c ∈ ds, isDigit c = true) :
    atoiFastLoop ds 0 = Except.ok (decimalValue ds : Int) := by
  have h := atoiFastLoop_digits ds hd 0
  simpa [decimalValue] using h

theorem length_pos_of_ne_nil (ds : GoString) (hne : ds ≠ []) : ¬ (ds.length < 1) := by
  cases ds with
  | nil => exact absurd rfl hne
  | cons c cs => simp

theorem Atoi_unsigned (ds : GoString) (hne : ds ≠ []) (hd : ∀ c ∈ ds, isDigit c = true)
    (hle : decimalValue ds ≤ 2 ^ 63 - 1) : Atoi ds = Except.ok (decimalValue ds : Int) := by
  have hmax : maxUint64 = 18446744073709551615 := by decide
  have hU : ParseUint ds = Except.ok (decimalValue ds) :=
    ParseUint_digits ds hne hd (by rw [hmax]; omega)
  have hF := atoiFastLoop_zero ds hd
  have hlen := length_pos_of_ne_nil ds hne
  cases ds with
  | nil => exact absurd rfl hne
  | cons c cs =>
    have hc := isDigit_ne_sign c (hd c (List.mem_cons_self c cs))
    by_cases hl : (c :: cs).length < 19
    · simp only [Atoi, if_pos hl, hc.1, hc.2, or_self, if_false, if_neg hlen, hF]
    · simp only [Atoi, if_neg hl, ParseInt, hc.1, hc.2, or_self, if_false, hU]
      simp
      omega

theorem Atoi_plus (ds : GoString) (hne : ds ≠ []) (hd : ∀ c ∈ ds, isDigit c = true)
    (hle : decimalValue ds ≤ 2 ^ 63 - 1) :
    Atoi (43 :: ds) = Except.ok (decimalValue ds : Int) := by
  have hmax : maxUint64 = 18446744073709551615 := by decide
  have hU : ParseUint ds = Except.ok (decimalValue ds) :=
    ParseUint_digits ds hne hd (by rw [hmax]; omega)
  have hF := atoiFastLoop_zero ds hd
  have hlen := length_pos_of_ne_nil ds hne
  have h43 : (43 : UInt8) ≠ 45 := by decide
  by_cases hl : (43 :: ds).length < 19
  · simp only [Atoi, if_pos hl, h43, or_true, if_true, if_false, if_neg hlen, hF]
  · simp only [Atoi, if_neg hl, ParseInt, h43, true_or, if_true, hU]
    simp
    omega

theorem Atoi_minus (ds : GoString) (hne : ds ≠ []) (hd : ∀ c ∈ ds, isDigit c = true)
    (hle : decimalValue ds ≤ 2 ^ 63) :
    Atoi (45 :: ds) = Except.ok (- (decimalValue ds : Int)) := by
  have hmax : maxUint64 = 18446744073709551615 := by decide
  have hU : ParseUint ds = Except.ok (decimalValue ds) :=
    ParseUint_digits ds hne hd (by rw [hmax]; omega)
  have hF := atoiFastLoop_zero ds hd
  have hlen := length_pos_of_ne_nil ds hne
  by_cases hl : (45 :: ds).length < 19
  · simp only [Atoi, if_pos hl, true_or, if_true, if_neg hlen, hF]
  · simp only [Atoi, if_neg hl, ParseInt, or_true, if_true, hU]
    simp
    omega

/-- `Atoi` accepts every decimal integer in range and returns its value. -/
theorem Atoi_decimal (sign ds : GoString) (hs : sign = [] ∨ sign = [43] ∨ sign = [45])
    (hne : ds ≠ []) (hd : ∀ c ∈ ds, isDigit c = true)
    (hle : if sign = [45] then decimalValue ds ≤ 2 ^ 63 else decimalValue ds ≤ 2 ^ 63 - 1) :
    Atoi (sign ++ ds) = Except.ok (signedValue sign ds) := by
  rcases hs with h | h | h
  · subst h
    simp only [List.nil_append, signedValue]
    rw [if_neg (by decide)] at hle
    rw [if_neg (by decide)]
    exact Atoi_unsigned ds hne hd hle
  · subst h
    have h1 : ¬ (([43] : GoString) = [45]) := by decide
    rw [if_neg h1] at hle
    simp only [signedValue, if_neg h1]
    exact Atoi_plus ds hne hd hle
  · subst h
    rw [if_pos rfl] at hle
    simp only [signedValue, if_pos]
    exact Atoi_minus ds hne hd hle



/-! ### Every id has a text that `Atoi` reads back -/

theorem digitByte_spec (d : Nat) (hd : d < 10) :
    isDigit (digitByte d) = true ∧ digitVal (digitByte d) = d := by
  have h : (digitByte d).toNat = 48 + d := by
    show (48 + d) % 256 = 48 + d
    omega
  constructor
  · unfold isDigit
    rw [h]
    simp
    omega
  · unfold digitVal
    rw [h]
    omega

theorem decimalFrom_append (n : Nat) (a b : List UInt8) :
    decimalFrom n (a ++ b) = decimalFrom (decimalFrom n a) b := by
  unfold decimalFrom
  rw [List.foldl_append]

theorem decimalValue_reverse_digits (L : List Nat) (hL : ∀ d ∈ L, d < 10) :
    decimalValue (L.reverse.map digitByte) = Nat.ofDigits 10 L := by
  induction L with
  | nil => rfl
  | cons d ds ih =>
    have hd := (digitByte_spec d (hL d (List.mem_cons_self d ds))).2
    have ih' := ih (fun x hx => hL x (List.mem_cons_of_mem d hx))
    unfold decimalValue at ih' ⊢
    rw [List.reverse_cons, List.map_append, decimalFrom_append, ih', Nat.ofDigits_cons]
    simp only [List.map_cons, List.map_nil, decimalFrom, List.foldl_cons, List.foldl_nil, hd]
    omega

theorem natText_spec (n : Nat) :
    natText n ≠ [] ∧ (∀ c ∈ natText n, isDigit c = true) ∧ decimalValue (natText n) = n := by
  unfold natText
  by_cases h0 : n = 0
  · rw [if_pos h0, h0]
    refine ⟨by simp, ?_, by decide⟩
    intro c hc
    rw [List.mem_singleton] at hc
    rw [hc]; decide
  · rw [if_neg h0]
    have hlt : ∀ d ∈ Nat.digits 10 n, d < 10 := fun d hd => Nat.digits_lt_base (by omega) hd
    refine ⟨?_, ?_, ?_⟩
    · intro hnil
      have h1 : Nat.digits 10 n = [] := by
        simpa using hnil
      exact h0 (Nat.digits_eq_nil_iff_eq_zero.mp h1)
    · intro c hc
      rw [List.mem_map] at hc
      obtain ⟨d, hd, hdc⟩ := hc
      rw [← hdc]
      exact (digitByte_spec d (hlt d (List.mem_reverse.mp hd))).1
    · rw [decimalValue_reverse_digits _ hlt, Nat.ofDigits_digits]

/-- `Atoi` reads back the decimal text of every 64-bit integer. -/
theorem Atoi_Itoa (i : Int) (hlo : -(2 : Int) ^ 63 ≤ i) (hhi : i < (2 : Int) ^ 63) :
    Atoi (Itoa i) = Except.ok i := by
  obtain ⟨hne, hd, hv⟩ := natText_spec i.natAbs
  unfold Itoa
  by_cases hneg : i < 0
  · rw [if_pos hneg, Atoi_minus (natText i.natAbs) hne hd (by rw [hv]; omega), hv]
    congr 1
    omega
  · rw [if_neg hneg, Atoi_unsigned (natText i.natAbs) hne hd (by rw [hv]; omega), hv]
    congr 1
    omega


/-! ### The table operations -/

theorem insertReturningId_ok (db db' : Db) (fault : Fault) (name email : String) (id : Int)
    (h : insertReturningId db fault name email = (Except.ok id, db')) :
    id = (db.seq : Int) + 1 ∧ id ∉ db.rows.map Person.ID ∧
      db' = { rows := db.rows ++ [⟨id, name, email⟩], seq := db.seq + 1 } := by
  have key : ∀ f : Fault, f ≠ Fault.statement →
      insertReturningId db f name email = (Except.ok id, db') →
      id = (db.seq : Int) + 1 ∧ id ∉ db.rows.map Person.ID ∧
        db' = { rows := db.rows ++ [⟨id, name, email⟩], seq := db.seq + 1 } := by
    intro f hf hins
    have hunf : insertReturningId db f name email =
        if (db.seq : Int) + 1 ∈ db.rows.map Person.ID then
          (Except.error SqlError.other, { db with seq := db.seq + 1 })
        else
          (if f = Fault.scan ∨ streamBreaks f 1 = true then Except.error SqlError.other
            else Except.ok ((db.seq : Int) + 1),
            { rows := db.rows ++ [⟨(db.seq : Int) + 1, name, email⟩], seq := db.seq + 1 }) := by
      cases f with
      | statement => exact absurd rfl hf
      | none => rfl
      | scan => rfl
      | stream k => rfl
    rw [hunf] at hins
    by_cases hmem : (db.seq : Int) + 1 ∈ db.rows.map Person.ID
    · rw [if_pos hmem] at hins
      exact absurd (congrArg Prod.fst hins) (by simp)
    · rw [if_neg hmem] at hins
      have h1 := congrArg Prod.fst hins
      have h2 := congrArg Prod.snd hins
      simp only at h1 h2
      by_cases hs : f = Fault.scan ∨ streamBreaks f 1 = true
      · rw [if_pos hs] at h1
        exact absurd h1 (by simp)
      · rw [if_neg hs] at h1
        have hid : (db.seq : Int) + 1 = id := Except.ok.inj h1
        subst hid
        exact ⟨rfl, hmem, h2.symm⟩
  by_cases hf : fault = Fault.statement
  · subst hf
    exact absurd (congrArg Prod.fst h) (by simp [insertReturningId])
  · exact key fault hf h

theorem find_append_fresh (rows : List Person) (p : Person)
    (hfresh : p.ID ∉ rows.map Person.ID) :
    (rows ++ [p]).find? (fun q => decide (q.ID = p.ID)) = some p := by
  induction rows with
  | nil => simp
  | cons q qs ih =>
    have hq : q.ID ≠ p.ID := by
      intro h; apply hfresh; simp [h]
    have hqs : p.ID ∉ qs.map Person.ID := by
      intro h; apply hfresh; simp only [List.map_cons, List.mem_cons]; exact Or.inr h
    simp only [List.cons_append, List.find?_cons, hq, decide_False]
    exact ih hqs

theorem selectById_found (db : Db) (i : Int) (p : Person)
    (h : db.rows.find? (fun q => decide (q.ID = i)) = some p) :
    selectById db Fault.none i = Except.ok p := by
  have hb : ¬ (streamBreaks Fault.none
      (db.rows.filter (fun q => decide (q.ID = i))).length = true) := by
    simp [streamBreaks]
  have hs : ¬ (Fault.none = Fault.scan) := by decide
  simp only [selectById, if_neg hb, h, if_neg hs]

theorem selectById_absent (db : Db) (i : Int) (h : ∀ p ∈ db.rows, p.ID ≠ i) :
    selectById db Fault.none i = Except.error SqlError.ErrNoRows := by
  have hnone : db.rows.find? (fun q => decide (q.ID = i)) = none := by
    rw [List.find?_eq_none]
    intro q hq
    simpa using h q hq
  have hb : ¬ (streamBreaks Fault.none
      (db.rows.filter (fun q => decide (q.ID = i))).length = true) := by
    simp [streamBreaks]
  simp only [selectById, if_neg hb, hnone]

theorem sliceFrom_append (idStr : GoString) :
    sliceFrom (peoplePrefix ++ idStr) peoplePrefix.length = some idStr := by
  simp [sliceFrom]

/-- What `getPerson` answers to a GET whose id text parses. -/
theorem getPerson_parsed (db : Db) (fault : Fault) (r : Request) (idStr : GoString) (i : Int)
    (hm : r.Method = "GET") (hp : r.Path = peoplePrefix ++ idStr)
    (hid : Atoi idStr = Except.ok i) :
    getPerson db fault r =
      match selectById db fault i with
      | Except.error SqlError.ErrNoRows => Outcome.reply (httpError "Person not found" 404) db
      | Except.error SqlError.other => Outcome.reply (httpError "Failed to scan the row" 500) db
      | Except.ok person => Outcome.reply (jsonResponse (encodePerson person)) db := by
  simp only [getPerson, hm, hp, sliceFrom_append, hid, ne_eq, not_true_eq_false, if_false]



/-- What `createPerson` answers to a POST whose insert succeeds. -/
theorem createPerson_ok (db db' : Db) (fault : Fault) (r : Request) (id : Int)
    (hm : r.Method = "POST")
    (hins : insertReturningId db fault r.Body.Name r.Body.Email = (Except.ok id, db')) :
    createPerson db fault r =
      Outcome.reply ⟨200, some "application/json",
        Body.json (Json.object ⟨id, r.Body.Name, r.Body.Email⟩)⟩ db' := by
  simp only [createPerson, hm, ne_eq, not_true_eq_false, if_false, hins, jsonResponse,
    encodePerson]


/-- C1: when the insert of a POST succeeds, `createPerson` answers 200 with the person
`(id', n, e)` where `n`, `e` are the decoded name and email and `id' > 0` is the next value
of the storage sequence, an id no row had; the answer and the table do not depend on the
id field of the body; and a following GET of a path whose id text parses as `id'` (by
`Atoi_Itoa` the decimal text of `id'` is one) is answered by `getPerson` with 200 and the
same triple. -/
theorem createPerson_then_getPerson (db db' : Db) (fault : Fault) (r : Request) (id' : Int)
    (hm : r.Method = "POST")
    (hins : insertReturningId db fault r.Body.Name r.Body.Email = (Except.ok id', db')) :
    createPerson db fault r =
        Outcome.reply ⟨200, some "application/json",
          Body.json (Json.object ⟨id', r.Body.Name, r.Body.Email⟩)⟩ db' ∧
      0 < id' ∧ id' = (db.seq : Int) + 1 ∧ id' ∉ db.rows.map Person.ID ∧
      (∀ k : Int, createPerson db fault { r with Body := { r.Body with ID := k } } =
        createPerson db fault r) ∧
      (∀ (g : Request) (idStr : GoString), g.Method = "GET" → g.Path = peoplePrefix ++ idStr →
        Atoi idStr = Except.ok id' →
        getPerson db' Fault.none g =
          Outcome.reply ⟨200, some "application/json",
            Body.json (Json.object ⟨id', r.Body.Name, r.Body.Email⟩)⟩ db') := by
  obtain ⟨hid, hfresh, hdb⟩ := insertReturningId_ok db db' fault _ _ id' hins
  have hcreate := createPerson_ok db db' fault r id' hm hins
  refine ⟨hcreate, by omega, hid, hfresh, ?_, ?_⟩
  · intro k
    rw [hcreate]
    simp only [createPerson, hm, ne_eq, not_true_eq_false, if_false, hins, jsonResponse,
      encodePerson]
  · intro g idStr hg hp hparse
    rw [getPerson_parsed db' Fault.none g idStr id' hg hp hparse]
    have hfind : db'.rows.find? (fun q => decide (q.ID = id')) =
        some ⟨id', r.Body.Name, r.Body.Email⟩ := by
      rw [hdb]
      exact find_append_fresh db.rows ⟨id', r.Body.Name, r.Body.Email⟩ hfresh
    rw [selectById_found db' id' _ hfind]
    rfl

/-- Witness of C1: Alice is created in a table that holds the rows 1 and 2; the body carries
the id 77. -/
theorem createPerson_then_getPerson_witness :
    createPerson ⟨[⟨1, "x", "y"⟩, ⟨2, "u", "v"⟩], 2⟩ Fault.none
        ⟨"POST", ascii "/people", ⟨77, "Alice", "a@x.com"⟩⟩ =
      Outcome.reply ⟨200, some "application/json",
        Body.json (Json.object ⟨3, "Alice", "a@x.com"⟩)⟩
        ⟨[⟨1, "x", "y"⟩, ⟨2, "u", "v"⟩, ⟨3, "Alice", "a@x.com"⟩], 3⟩ ∧
    getPerson ⟨[⟨1, "x", "y"⟩, ⟨2, "u", "v"⟩, ⟨3, "Alice", "a@x.com"⟩], 3⟩ Fault.none
        ⟨"GET", ascii "/people/3", Person.zero⟩ =
      Outcome.reply ⟨200, some "application/json",
        Body.json (Json.object ⟨3, "Alice", "a@x.com"⟩)⟩
        ⟨[⟨1, "x", "y"⟩, ⟨2, "u", "v"⟩, ⟨3, "Alice", "a@x.com"⟩], 3⟩ :=
  have h := createPerson_then_getPerson ⟨[⟨1, "x", "y"⟩, ⟨2, "u", "v"⟩], 2⟩
    ⟨[⟨1, "x", "y"⟩, ⟨2, "u", "v"⟩, ⟨3, "Alice", "a@x.com"⟩], 3⟩ Fault.none
    ⟨"POST", ascii "/people", ⟨77, "Alice", "a@x.com"⟩⟩ 3 rfl (by decide)
  ⟨h.1, h.2.2.2.2.2 ⟨"GET", ascii "/people/3", Person.zero⟩ (ascii "3") rfl (by decide)
    (by decide)⟩



theorem updateRow_id (name email : String) (i : Int) (p : Person) :
    (updateRow name email i p).ID = p.ID := by
  unfold updateRow
  by_cases h : p.ID = i
  · rw [if_pos h]
  · rw [if_neg h]

theorem updateRow_hit (name email : String) (i : Int) (p : Person) (h : p.ID = i) :
    updateRow name email i p = ⟨i, name, email⟩ := by
  unfold updateRow
  rw [if_pos h, ← h]

theorem updateRow_miss (name email : String) (i : Int) (p : Person) (h : p.ID ≠ i) :
    updateRow name email i p = p := by
  unfold updateRow
  rw [if_neg h]

theorem execUpdate_ok (db db' : Db) (fault : Fault) (name email : String) (i : Int)
    (h : execUpdate db fault name email i = Except.ok db') :
    db'.rows = db.rows.map (updateRow name email i) ∧ db'.seq = db.seq := by
  cases fault with
  | statement => exact absurd h (by simp [execUpdate])
  | none =>
    simp only [execUpdate, Except.ok.injEq] at h
    rw [← h]; exact ⟨rfl, rfl⟩
  | scan =>
    simp only [execUpdate, Except.ok.injEq] at h
    rw [← h]; exact ⟨rfl, rfl⟩
  | stream k =>
    simp only [execUpdate, Except.ok.injEq] at h
    rw [← h]; exact ⟨rfl, rfl⟩

theorem execDelete_ok (db db' : Db) (fault : Fault) (i : Int)
    (h : execDelete db fault i = Except.ok db') :
    db'.rows = db.rows.filter (fun p => decide (p.ID ≠ i)) ∧ db'.seq = db.seq := by
  cases fault with
  | statement => exact absurd h (by simp [execDelete])
  | none =>
    simp only [execDelete, Except.ok.injEq] at h
    rw [← h]; exact ⟨rfl, rfl⟩
  | scan =>
    simp only [execDelete, Except.ok.injEq] at h
    rw [← h]; exact ⟨rfl, rfl⟩
  | stream k =>
    simp only [execDelete, Except.ok.injEq] at h
    rw [← h]; exact ⟨rfl, rfl⟩

theorem mem_ids_of_ne (i : Int) (q : Person) (qs : List Person)
    (hrow : i ∈ (q :: qs).map Person.ID) (h : q.ID ≠ i) : i ∈ qs.map Person.ID := by
  rw [List.map_cons, List.mem_cons] at hrow
  rcases hrow with h' | h'
  · exact absurd h'.symm h
  · exact h'

theorem update_filter_other (name email : String) (i : Int) (rows : List Person) :
    (rows.map (updateRow name email i)).filter (fun p => decide (p.ID ≠ i)) =
      rows.filter (fun p => decide (p.ID ≠ i)) := by
  induction rows with
  | nil => rfl
  | cons q qs ih =>
    rw [List.map_cons, List.filter_cons, List.filter_cons, ih, updateRow_id]
    by_cases h : q.ID = i
    · simp [h]
    · simp [h, updateRow_miss name email i q h]

theorem update_filter_absent (name email : String) (i : Int) (rows : List Person)
    (habs : i ∉ rows.map Person.ID) :
    (rows.map (updateRow name email i)).filter (fun p => decide (p.ID = i)) = [] := by
  rw [List.filter_eq_nil_iff]
  intro q hq
  rw [List.mem_map] at hq
  obtain ⟨p, hp, hpq⟩ := hq
  have hne : p.ID ≠ i := by
    intro h; apply habs; rw [List.mem_map]; exact ⟨p, hp, h⟩
  rw [← hpq, updateRow_id]
  simpa using hne

theorem update_filter_same (name email : String) (i : Int) (rows : List Person)
    (hnodup : (rows.map Person.ID).Nodup) (hrow : i ∈ rows.map Person.ID) :
    (rows.map (updateRow name email i)).filter (fun p => decide (p.ID = i)) =
      [⟨i, name, email⟩] := by
  induction rows with
  | nil => simp at hrow
  | cons q qs ih =>
    rw [List.map_cons, List.nodup_cons] at hnodup
    rw [List.map_cons, List.filter_cons, updateRow_id]
    by_cases h : q.ID = i
    · have habs : i ∉ qs.map Person.ID := by rw [← h]; exact hnodup.1
      rw [update_filter_absent name email i qs habs, updateRow_hit name email i q h]
      simp [h]
    · rw [ih hnodup.2 (mem_ids_of_ne i q qs hrow h)]
      simp [h]

theorem update_find (name email : String) (i : Int) (rows : List Person)
    (hrow : i ∈ rows.map Person.ID) :
    (rows.map (updateRow name email i)).find? (fun p => decide (p.ID = i)) =
      some ⟨i, name, email⟩ := by
  induction rows with
  | nil => simp at hrow
  | cons q qs ih =>
    rw [List.map_cons, List.find?_cons, updateRow_id]
    by_cases h : q.ID = i
    · rw [updateRow_hit name email i q h]
      simp [h]
    · rw [ih (mem_ids_of_ne i q qs hrow h)]
      simp [h]

theorem update_ids (name email : String) (i : Int) (rows : List Person) :
    (rows.map (updateRow name email i)).map Person.ID = rows.map Person.ID := by
  rw [List.map_map]
  apply List.map_congr_left
  intro p _
  exact updateRow_id name email i p

/-- C2: on a table with unique ids that holds a row with id `i`, a PUT whose id text parses
as `i` and whose statement succeeds is answered 200; afterwards the rows with id `i` are
exactly the one row `(i, n, e)` with the decoded name and email, the rows with another id
are the ones of before, the ids of the table are unchanged, the table does not depend on
the id field of the body, and a following GET of id `i` is answered by `getPerson` with 200
and `(i, n, e)`. -/
theorem updatePerson_then_getPerson (db db' : Db) (fault : Fault) (r : Request)
    (idStr : GoString) (i : Int)
    (huniq : UniqueIds db) (hrow : ∃ p ∈ db.rows, p.ID = i)
    (hm : r.Method = "PUT") (hp : r.Path = peoplePrefix ++ idStr)
    (hid : Atoi idStr = Except.ok i)
    (hupd : execUpdate db fault r.Body.Name r.Body.Email i = Except.ok db') :
    (∃ resp, updatePerson db fault r = Outcome.reply resp db' ∧ resp.status = 200) ∧
      db'.rows.filter (fun p => decide (p.ID = i)) = [⟨i, r.Body.Name, r.Body.Email⟩] ∧
      db'.rows.filter (fun p => decide (p.ID ≠ i)) =
        db.rows.filter (fun p => decide (p.ID ≠ i)) ∧
      db'.rows.map Person.ID = db.rows.map Person.ID ∧
      (∀ k : Int, ∃ resp,
        updatePerson db fault { r with Body := { r.Body with ID := k } } =
          Outcome.reply resp db') ∧
      (∀ (g : Request) (idStr' : GoString), g.Method = "GET" →
        g.Path = peoplePrefix ++ idStr' → Atoi idStr' = Except.ok i →
        getPerson db' Fault.none g =
          Outcome.reply ⟨200, some "application/json",
            Body.json (Json.object ⟨i, r.Body.Name, r.Body.Email⟩)⟩ db') := by
  have hrows := (execUpdate_ok db db' fault _ _ i hupd).1
  have hmem : i ∈ db.rows.map Person.ID := by
    obtain ⟨p, hp, hpi⟩ := hrow
    rw [List.mem_map]; exact ⟨p, hp, hpi⟩
  refine ⟨⟨jsonResponse (encodePerson r.Body), ?_, rfl⟩, ?_, ?_, ?_, ?_, ?_⟩
  · simp only [updatePerson, hm, hp, sliceFrom_append, hid, hupd, ne_eq, not_true_eq_false,
      if_false]
  · rw [hrows]; exact update_filter_same _ _ i db.rows huniq hmem
  · rw [hrows]; exact update_filter_other _ _ i db.rows
  · rw [hrows]; exact update_ids _ _ i db.rows
  · intro k
    refine ⟨jsonResponse (encodePerson { r.Body with ID := k }), ?_⟩
    simp only [updatePerson, hm, hp, sliceFrom_append, hid, hupd, ne_eq, not_true_eq_false,
      if_false]
  · intro g idStr' hg hp' hparse
    rw [getPerson_parsed db' Fault.none g idStr' i hg hp' hparse]
    have hfind : db'.rows.find? (fun q => decide (q.ID = i)) =
        some ⟨i, r.Body.Name, r.Body.Email⟩ := by
      rw [hrows]; exact update_find _ _ i db.rows hmem
    rw [selectById_found db' i _ hfind]
    rfl

/-- Witness of C2: row 5 of a table with the rows 4, 5, 6 is updated by a body that carries
the id 9. -/
theorem updatePerson_then_getPerson_witness :
    [(⟨4, "a", "b"⟩ : Person), ⟨5, "n", "e"⟩, ⟨6, "c", "d"⟩].filter
        (fun p => decide (p.ID = 5)) = [⟨5, "n", "e"⟩] ∧
    getPerson ⟨[⟨4, "a", "b"⟩, ⟨5, "n", "e"⟩, ⟨6, "c", "d"⟩], 6⟩ Fault.none
        ⟨"GET", ascii "/people/5", Person.zero⟩ =
      Outcome.reply ⟨200, some "application/json", Body.json (Json.object ⟨5, "n", "e"⟩)⟩
        ⟨[⟨4, "a", "b"⟩, ⟨5, "n", "e"⟩, ⟨6, "c", "d"⟩], 6⟩ :=
  have h := updatePerson_then_getPerson
    ⟨[⟨4, "a", "b"⟩, ⟨5, "old", "o@x"⟩, ⟨6, "c", "d"⟩], 6⟩
    ⟨[⟨4, "a", "b"⟩, ⟨5, "n", "e"⟩, ⟨6, "c", "d"⟩], 6⟩ Fault.none
    ⟨"PUT", ascii "/people/5", ⟨9, "n", "e"⟩⟩ (ascii "5") 5
    (by decide) ⟨⟨5, "old", "o@x"⟩, by decide, rfl⟩ rfl (by decide) (by decide) (by decide)
  ⟨h.2.1, h.2.2.2.2.2 ⟨"GET", ascii "/people/5", Person.zero⟩ (ascii "5") rfl (by decide)
    (by decide)⟩

/-- C3: a DELETE whose id text parses as `i` and whose statement does not fail is answered
204 with an empty body, whether or not a row with id `i` exists; the table keeps exactly
the rows with another id, unchanged; and a following GET of id `i` is answered by
`getPerson` with 404. -/
theorem deletePerson_then_getPerson (db db' : Db) (fault : Fault) (r : Request)
    (idStr : GoString) (i : Int)
    (hm : r.Method = "DELETE") (hp : r.Path = peoplePrefix ++ idStr)
    (hid : Atoi idStr = Except.ok i)
    (hdel : execDelete db fault i = Except.ok db') :
    deletePerson db fault r = Outcome.reply ⟨204, none, Body.empty⟩ db' ∧
      db'.rows = db.rows.filter (fun p => decide (p.ID ≠ i)) ∧
      db'.rows.filter (fun p => decide (p.ID ≠ i)) =
        db.rows.filter (fun p => decide (p.ID ≠ i)) ∧
      (∀ (g : Request) (idStr' : GoString), g.Method = "GET" →
        g.Path = peoplePrefix ++ idStr' → Atoi idStr' = Except.ok i →
        getPerson db' Fault.none g =
          Outcome.reply ⟨404, some "text/plain; charset=utf-8", Body.text "Person not found"⟩
            db') := by
  have hrows := (execDelete_ok db db' fault i hdel).1
  refine ⟨?_, hrows, ?_, ?_⟩
  · simp only [deletePerson, hm, hp, sliceFrom_append, hid, hdel, ne_eq, not_true_eq_false,
      if_false, noContent]
  · rw [hrows, List.filter_filter]
    simp
  · intro g idStr' hg hp' hparse
    rw [getPerson_parsed db' Fault.none g idStr' i hg hp' hparse]
    have habs : ∀ p ∈ db'.rows, p.ID ≠ i := by
      intro p hp
      rw [hrows, List.mem_filter] at hp
      simpa using hp.2
    rw [selectById_absent db' i habs]
    rfl

/-- Witness of C3: the id 7 is deleted from a table that never held it. -/
theorem deletePerson_then_getPerson_witness :
    deletePerson ⟨[⟨4, "a", "b"⟩], 4⟩ Fault.none ⟨"DELETE", ascii "/people/7", Person.zero⟩ =
      Outcome.reply ⟨204, none, Body.empty⟩ ⟨[⟨4, "a", "b"⟩], 4⟩ ∧
    getPerson ⟨[⟨4, "a", "b"⟩], 4⟩ Fault.none ⟨"GET", ascii "/people/7", Person.zero⟩ =
      Outcome.reply ⟨404, some "text/plain; charset=utf-8", Body.text "Person not found"⟩
        ⟨[⟨4, "a", "b"⟩], 4⟩ :=
  have h := deletePerson_then_getPerson ⟨[⟨4, "a", "b"⟩], 4⟩ ⟨[⟨4, "a", "b"⟩], 4⟩ Fault.none
    ⟨"DELETE", ascii "/people/7", Person.zero⟩ (ascii "7") 7 rfl (by decide) (by decide)
    (by decide)
  ⟨h.1, h.2.2.2 ⟨"GET", ascii "/people/7", Person.zero⟩ (ascii "7") rfl (by decide)
    (by decide)⟩

theorem sliceFrom_of_le (s : GoString) (h : peoplePrefix.length ≤ s.length) :
    sliceFrom s peoplePrefix.length = some (s.drop peoplePrefix.length) := by
  unfold sliceFrom
  rw [if_pos h]

theorem sliceFrom_of_lt (s : GoString) (h : s.length < peoplePrefix.length) :
    sliceFrom s peoplePrefix.length = none := by
  unfold sliceFrom
  rw [if_neg (by omega)]

theorem filter_length_of_absent (rows : List Person) (i : Int)
    (h : ∀ p ∈ rows, p.ID ≠ i) : (rows.filter (fun p => decide (p.ID = i))).length = 0 := by
  have hnil : rows.filter (fun p => decide (p.ID = i)) = [] := by
    rw [List.filter_eq_nil_iff]
    intro p hp
    simpa using h p hp
  rw [hnil]; rfl

theorem selectById_unfold (db : Db) (fault : Fault) (i : Int) (hf : fault ≠ Fault.statement) :
    selectById db fault i =
      if streamBreaks fault (db.rows.filter (fun p => decide (p.ID = i))).length = true then
        Except.error SqlError.other
      else
        match db.rows.find? (fun p => decide (p.ID = i)) with
        | none => Except.error SqlError.ErrNoRows
        | some p => if fault = Fault.scan then Except.error SqlError.other else Except.ok p := by
  cases fault with
  | statement => exact absurd rfl hf
  | none => rfl
  | scan => rfl
  | stream k => rfl

theorem streamBreaks_zero (fault : Fault) :
    streamBreaks fault 0 = true ↔ fault = Fault.stream 0 := by
  cases fault with
  | none => simp [streamBreaks]
  | statement => simp [streamBreaks]
  | scan => simp [streamBreaks]
  | stream k => simp [streamBreaks]

theorem streamBreaks_ne_none (fault : Fault) (m : Nat) (h : streamBreaks fault m = true) :
    fault ≠ Fault.none := by
  intro hf; subst hf
  simp [streamBreaks] at h

/-- The three outcomes of the select by id and the inputs that lead to each. -/
theorem selectById_cases (db : Db) (fault : Fault) (i : Int) :
    (selectById db fault i = Except.error SqlError.ErrNoRows ∧ fault ≠ Fault.statement ∧
        fault ≠ Fault.stream 0 ∧ ∀ p ∈ db.rows, p.ID ≠ i) ∨
      (selectById db fault i = Except.error SqlError.other ∧ fault ≠ Fault.none ∧
        (fault = Fault.statement ∨ fault = Fault.stream 0 ∨ ∃ p ∈ db.rows, p.ID = i)) ∨
      (∃ p, selectById db fault i = Except.ok p ∧ fault ≠ Fault.statement ∧ p ∈ db.rows ∧
        p.ID = i) := by
  by_cases hf : fault = Fault.statement
  · subst hf
    exact Or.inr (Or.inl ⟨rfl, by decide, Or.inl rfl⟩)
  · rw [selectById_unfold db fault i hf]
    cases hfind : db.rows.find? (fun q => decide (q.ID = i)) with
    | none =>
      have habs : ∀ p ∈ db.rows, p.ID ≠ i := by
        intro p hp
        rw [List.find?_eq_none] at hfind
        simpa using hfind p hp
      rw [filter_length_of_absent db.rows i habs]
      by_cases hb : streamBreaks fault 0 = true
      · rw [if_pos hb]
        exact Or.inr (Or.inl ⟨rfl, streamBreaks_ne_none fault 0 hb,
          Or.inr (Or.inl ((streamBreaks_zero fault).mp hb))⟩)
      · rw [if_neg hb]
        exact Or.inl ⟨rfl, hf, fun h0 => hb ((streamBreaks_zero fault).mpr h0), habs⟩
    | some p =>
      have hmem : p ∈ db.rows := List.mem_of_find?_eq_some hfind
      have hpi : p.ID = i := by simpa using List.find?_some hfind
      by_cases hb : streamBreaks fault
          (db.rows.filter (fun q => decide (q.ID = i))).length = true
      · rw [if_pos hb]
        exact Or.inr (Or.inl ⟨rfl, streamBreaks_ne_none fault _ hb,
          Or.inr (Or.inr ⟨p, hmem, hpi⟩)⟩)
      · rw [if_neg hb]
        by_cases hs : fault = Fault.scan
        · dsimp only
          rw [if_pos hs]
          exact Or.inr (Or.inl ⟨rfl, by rw [hs]; decide, Or.inr (Or.inr ⟨p, hmem, hpi⟩)⟩)
        · dsimp only
          rw [if_neg hs]
          exact Or.inr (Or.inr ⟨p, rfl, hf, hmem, hpi⟩)

/-- C4: for a GET whose id text parses as `i`, `getPerson` answers 404 exactly when the
select reports no row with id `i`, which is exactly when the statement runs, the connection
does not break before the empty result is read and no row of the table has the id; it
answers 200 with the row when one is found and scanned (it is a row of the table and its id
is `i`), and 500 for every other failure of the statement.  In particular, for an id that no
row has, the answer is never 200, and it is the 404 "Person not found", not 500, whenever
the select is answered by the table, also when a scan could not read a row. -/
theorem getPerson_status (db : Db) (fault : Fault) (r : Request) (idStr : GoString) (i : Int)
    (hm : r.Method = "GET") (hp : r.Path = peoplePrefix ++ idStr)
    (hid : Atoi idStr = Except.ok i) :
    ∃ resp, getPerson db fault r = Outcome.reply resp db ∧
      (resp.status = 404 ↔ selectById db fault i = Except.error SqlError.ErrNoRows) ∧
      (selectById db fault i = Except.error SqlError.ErrNoRows ↔
        (fault ≠ Fault.statement ∧ fault ≠ Fault.stream 0 ∧ ∀ p ∈ db.rows, p.ID ≠ i)) ∧
      (∀ p, selectById db fault i = Except.ok p →
        resp = ⟨200, some "application/json", Body.json (Json.object p)⟩ ∧
          p ∈ db.rows ∧ p.ID = i) ∧
      (selectById db fault i = Except.error SqlError.other → resp.status = 500) ∧
      (resp.status = 404 ∨ resp.status = 200 ∨ resp.status = 500) ∧
      ((∀ p ∈ db.rows, p.ID ≠ i) → resp.status ≠ 200) ∧
      (fault ≠ Fault.statement → fault ≠ Fault.stream 0 → (∀ p ∈ db.rows, p.ID ≠ i) →
        resp = ⟨404, some "text/plain; charset=utf-8", Body.text "Person not found"⟩) := by
  rw [getPerson_parsed db fault r idStr i hm hp hid]
  rcases selectById_cases db fault i with ⟨hs, hf, hf0, habs⟩ | ⟨hs, hfn, hwhy⟩ |
    ⟨p, hs, hf, hmem, hpi⟩
  · rw [hs]
    refine ⟨_, rfl, ⟨fun _ => rfl, fun _ => rfl⟩, ⟨fun _ => ⟨hf, hf0, habs⟩, fun _ => rfl⟩,
      ?_, ?_, Or.inl rfl, fun _ => by decide, fun _ _ _ => rfl⟩
    · intro p hp; exact absurd hp (by simp)
    · intro h; exact absurd h (by simp)
  · rw [hs]
    have hnot : ¬ (fault ≠ Fault.statement ∧ fault ≠ Fault.stream 0 ∧
        ∀ p ∈ db.rows, p.ID ≠ i) := by
      intro ⟨h1, h2, h3⟩
      rcases hwhy with h | h | ⟨p, hp, hpi⟩
      · exact h1 h
      · exact h2 h
      · exact h3 p hp hpi
    refine ⟨_, rfl, ⟨fun h => absurd h (by decide), fun h => absurd h (by simp)⟩,
      ⟨fun h => absurd h (by simp), fun h => absurd h hnot⟩, ?_, fun _ => rfl,
      Or.inr (Or.inr rfl), fun _ => by decide, fun h1 h2 h3 => absurd ⟨h1, h2, h3⟩ hnot⟩
    intro p hp; exact absurd hp (by simp)
  · rw [hs]
    refine ⟨_, rfl, ⟨fun h => absurd h (by simp [jsonResponse]), fun h => absurd h (by simp)⟩,
      ⟨fun h => absurd h (by simp), fun h => absurd hpi (h.2.2 p hmem)⟩, ?_,
      fun h => absurd h (by simp), Or.inr (Or.inl rfl), fun h => absurd hpi (h p hmem),
      fun _ _ h => absurd hpi (h p hmem)⟩
    intro q hq
    have hqp : p = q := by simpa using hq
    subst hqp
    exact ⟨rfl, hmem, hpi⟩

/-- Witness of C4: the id 999999 on a table that does not hold it, at a scan that would
fail on a row. -/
theorem getPerson_status_witness :
    ∃ resp, getPerson ⟨[⟨1, "a", "b"⟩], 1⟩ Fault.scan
        ⟨"GET", ascii "/people/999999", Person.zero⟩ = Outcome.reply resp ⟨[⟨1, "a", "b"⟩], 1⟩ ∧
      resp = ⟨404, some "text/plain; charset=utf-8", Body.text "Person not found"⟩ :=
  have h := getPerson_status ⟨[⟨1, "a", "b"⟩], 1⟩ Fault.scan
    ⟨"GET", ascii "/people/999999", Person.zero⟩ (ascii "999999") 999999 rfl (by decide)
    (by decide)
  h.elim fun resp hr => ⟨resp, hr.1, hr.2.2.2.2.2.2.2 (by decide) (by decide) (by decide)⟩

/-! ### The routes -/

theorem personRoute_call (r : Request) (h : Handler) (hroute : personRoute r = Route.call h) :
    peoplePrefix.length < r.Path.length ∧
      ((h = Handler.getPerson ∧ r.Method = "GET") ∨
        (h = Handler.updatePerson ∧ r.Method = "PUT") ∨
        (h = Handler.deletePerson ∧ r.Method = "DELETE")) := by
  unfold personRoute at hroute
  by_cases hlen : r.Path.length > peoplePrefix.length
  · rw [if_pos hlen] at hroute
    refine ⟨hlen, ?_⟩
    by_cases hg : r.Method = "GET"
    · rw [if_pos hg] at hroute
      exact Or.inl ⟨(Route.call.inj hroute).symm, hg⟩
    · rw [if_neg hg] at hroute
      by_cases hput : r.Method = "PUT"
      · rw [if_pos hput] at hroute
        exact Or.inr (Or.inl ⟨(Route.call.inj hroute).symm, hput⟩)
      · rw [if_neg hput] at hroute
        by_cases hd : r.Method = "DELETE"
        · rw [if_pos hd] at hroute
          exact Or.inr (Or.inr ⟨(Route.call.inj hroute).symm, hd⟩)
        · rw [if_neg hd] at hroute
          exact absurd hroute (by simp)
  · rw [if_neg hlen] at hroute
    exact absurd hroute (by simp)

theorem peopleRoute_call (r : Request) (h : Handler) (hroute : peopleRoute r = Route.call h) :
    h = Handler.createPerson ∨ h = Handler.getPeople := by
  unfold peopleRoute at hroute
  by_cases hp : r.Path = ascii "/people"
  · rw [if_pos hp] at hroute
    by_cases hpost : r.Method = "POST"
    · rw [if_pos hpost] at hroute
      exact Or.inl (Route.call.inj hroute).symm
    · rw [if_neg hpost] at hroute
      by_cases hg : r.Method = "GET"
      · rw [if_pos hg] at hroute
        exact Or.inr (Route.call.inj hroute).symm
      · rw [if_neg hg] at hroute
        exact absurd hroute (by simp)
  · rw [if_neg hp] at hroute
    exact absurd hroute (by simp)

theorem shouldRedirect_false (path : GoString) : shouldRedirect path = false := by
  unfold shouldRedirect
  by_cases h1 : path ∈ muxPatterns
  · simp [h1]
  · by_cases h3 : path ++ [47] ∈ muxPatterns
    · exfalso
      simp only [muxPatterns, List.mem_cons, List.mem_singleton, List.not_mem_nil,
        or_false] at h1 h3
      rcases h3 with h | h
      · have hlast : (path ++ [47]).getLast? = (ascii "/people").getLast? := by rw [h]
        have h47 : ([47] : GoString).getLast?.or path.getLast? = some 47 := rfl
        rw [List.getLast?_append, h47] at hlast
        exact absurd hlast (by decide)
      · have h' : path ++ [47] = ascii "/people" ++ [47] := by rw [h]; decide
        exact h1 (Or.inl (List.append_cancel_right h'))
    · simp [h3]

theorem cleanPath_head (p : GoString) : (cleanPath p).head? = some 47 := by
  have key : ∀ q : GoString,
      (if q.getLast? = some 47 ∧ pathClean q ≠ [47] then pathClean q ++ [47]
        else pathClean q).head? = some 47 := by
    intro q
    by_cases hc : q.getLast? = some 47 ∧ pathClean q ≠ [47]
    · rw [if_pos hc]; rfl
    · rw [if_neg hc]; rfl
  unfold cleanPath
  by_cases hp : p = []
  · rw [if_pos hp]; rfl
  · rw [if_neg hp]
    exact key _

theorem canonical_ne_star (p : GoString) (h : cleanPath p = p) : p ≠ ascii "*" := by
  intro hs
  have hh := cleanPath_head p
  rw [h, hs] at hh
  exact absurd hh (by decide)

/-- A CONNECT request and a request with a canonical path reach the function of the
matching pattern, the request target `*` apart. -/
theorem serveMux_canonical (r : Request) (hstar : r.Path ≠ ascii "*")
    (hclean : r.Method = "CONNECT" ∨ cleanPath r.Path = r.Path) :
    serveMux r = muxHandler r r.Path := by
  unfold serveMux
  rw [if_neg hstar]
  by_cases hm : r.Method = "CONNECT"
  · rw [if_pos hm, shouldRedirect_false]
    simp
  · rcases hclean with h | h
    · exact absurd h hm
    · rw [if_neg hm]
      simp only [shouldRedirect_false, h, ne_eq, not_true_eq_false, if_false]
      simp

/-- Every other request is answered by the mux with a redirect to the canonical path. -/
theorem serveMux_redirect (r : Request) (hstar : r.Path ≠ ascii "*")
    (hm : r.Method ≠ "CONNECT") (hc : cleanPath r.Path ≠ r.Path) :
    serveMux r = Route.answer (httpRedirect r.Method (cleanPath r.Path)) := by
  unfold serveMux
  rw [if_neg hstar, if_neg hm]
  simp only [shouldRedirect_false, ne_eq, hc, not_false_eq_true, if_true]
  simp

theorem serveMux_call (r : Request) (h : Handler) (hroute : serveMux r = Route.call h) :
    (r.Method = "CONNECT" ∨ cleanPath r.Path = r.Path) ∧
      muxHandler r r.Path = Route.call h := by
  by_cases hstar : r.Path = ascii "*"
  · unfold serveMux at hroute
    rw [if_pos hstar] at hroute
    exact absurd hroute (by simp)
  · by_cases hm : r.Method = "CONNECT"
    · exact ⟨Or.inl hm, by rw [← serveMux_canonical r hstar (Or.inl hm)]; exact hroute⟩
    · by_cases hc : cleanPath r.Path = r.Path
      · exact ⟨Or.inr hc, by rw [← serveMux_canonical r hstar (Or.inr hc)]; exact hroute⟩
      · rw [serveMux_redirect r hstar hm hc] at hroute
        exact absurd hroute (by simp)

theorem serveMux_call_person (r : Request) (h : Handler) (hroute : serveMux r = Route.call h)
    (hh : h = Handler.getPerson ∨ h = Handler.updatePerson ∨ h = Handler.deletePerson) :
    peoplePrefix <+: r.Path ∧ personRoute r = Route.call h := by
  have hmux := (serveMux_call r h hroute).2
  unfold muxHandler at hmux
  by_cases hp : r.Path = ascii "/people"
  · rw [if_pos hp] at hmux
    rcases peopleRoute_call r h hmux with h1 | h1 <;> rcases hh with h2 | h2 | h2 <;>
      rw [h1] at h2 <;> exact absurd h2 (by decide)
  · rw [if_neg hp] at hmux
    by_cases hpre : peoplePrefix <+: r.Path
    · rw [if_pos hpre] at hmux
      exact ⟨hpre, hmux⟩
    · rw [if_neg hpre] at hmux
      exact absurd hmux (by simp)

/-- C10: a request that the `/people/` route hands to a handler has a path strictly longer
than the prefix, so the slice `Path[len("/people/"):]` is in bounds, the id text it yields
is not empty, the handler is one of `getPerson`, `updatePerson`, `deletePerson` and it does
not panic; on a path shorter than the prefix the same slice is out of range and each of the
three handlers, called with its own method, panics. -/
theorem slice_in_bounds (r : Request) (h : Handler)
    (hroute : personRoute r = Route.call h) :
    peoplePrefix.length < r.Path.length ∧
      (∃ idStr : GoString, sliceFrom r.Path peoplePrefix.length = some idStr ∧ idStr ≠ []) ∧
      (h = Handler.getPerson ∨ h = Handler.updatePerson ∨ h = Handler.deletePerson) ∧
      (∀ (db : Db) (fault : Fault), runHandler h db fault r ≠ Outcome.panic) ∧
      (∀ (db : Db) (fault : Fault) (q : Request), q.Path.length < peoplePrefix.length →
        sliceFrom q.Path peoplePrefix.length = none ∧
        getPerson db fault { q with Method := "GET" } = Outcome.panic ∧
        updatePerson db fault { q with Method := "PUT" } = Outcome.panic ∧
        deletePerson db fault { q with Method := "DELETE" } = Outcome.panic) := by
  obtain ⟨hlen, hcases⟩ := personRoute_call r h hroute
  have hslice := sliceFrom_of_le r.Path (Nat.le_of_lt hlen)
  refine ⟨hlen, ⟨_, hslice, ?_⟩, ?_, ?_, ?_⟩
  · intro hnil
    have := congrArg List.length hnil
    rw [List.length_drop, List.length_nil] at this
    omega
  · rcases hcases with ⟨h1, _⟩ | ⟨h1, _⟩ | ⟨h1, _⟩
    · exact Or.inl h1
    · exact Or.inr (Or.inl h1)
    · exact Or.inr (Or.inr h1)
  · intro db fault
    rcases hcases with ⟨h1, hm⟩ | ⟨h1, hm⟩ | ⟨h1, hm⟩
    · subst h1
      simp only [runHandler, getPerson, hm, hslice, ne_eq, not_true_eq_false, if_false]
      cases Atoi (r.Path.drop peoplePrefix.length) with
      | error e => simp
      | ok i =>
        rcases selectById_cases db fault i with ⟨hs, _⟩ | ⟨hs, _⟩ | ⟨p, hs, _⟩ <;>
          simp [hs]
    · subst h1
      simp only [runHandler, updatePerson, hm, hslice, ne_eq, not_true_eq_false, if_false]
      cases Atoi (r.Path.drop peoplePrefix.length) with
      | error e => simp
      | ok i =>
        dsimp only
        split <;> simp
    · subst h1
      simp only [runHandler, deletePerson, hm, hslice, ne_eq, not_true_eq_false, if_false]
      cases Atoi (r.Path.drop peoplePrefix.length) with
      | error e => simp
      | ok i =>
        dsimp only
        split <;> simp
  · intro db fault q hq
    have hnone := sliceFrom_of_lt q.Path hq
    refine ⟨hnone, ?_, ?_, ?_⟩
    · simp only [getPerson, hnone, ne_eq, not_true_eq_false, if_false]
    · simp only [updatePerson, hnone, ne_eq, not_true_eq_false, if_false]
    · simp only [deletePerson, hnone, ne_eq, not_true_eq_false, if_false]

/-- Witness of C10: `DELETE /people/7`. -/
theorem slice_in_bounds_witness :
    sliceFrom (ascii "/people/7") peoplePrefix.length ≠ none ∧
      getPerson ⟨[], 0⟩ Fault.none ⟨"GET", ascii "/peopl", Person.zero⟩ = Outcome.panic :=
  have h := slice_in_bounds ⟨"DELETE", ascii "/people/7", Person.zero⟩ Handler.deletePerson
    (by decide)
  ⟨fun hn => h.2.1.elim fun _ hs => absurd (hn ▸ hs.1) (by simp),
    (h.2.2.2.2 ⟨[], 0⟩ Fault.none ⟨"", ascii "/peopl", Person.zero⟩ (by decide)).2.1⟩

/-! ### The id text -/

theorem runHandler_bad_id (db : Db) (fault : Fault) (r : Request) (h : Handler)
    (e : NumError)
    (hcases : (h = Handler.getPerson ∧ r.Method = "GET") ∨
      (h = Handler.updatePerson ∧ r.Method = "PUT") ∨
      (h = Handler.deletePerson ∧ r.Method = "DELETE"))
    (hslice : sliceFrom r.Path peoplePrefix.length = some (r.Path.drop peoplePrefix.length))
    (hA : Atoi (r.Path.drop peoplePrefix.length) = Except.error e) :
    runHandler h db fault r =
      Outcome.reply ⟨400, some "text/plain; charset=utf-8", Body.text "Invalid ID"⟩ db := by
  rcases hcases with ⟨h1, hm⟩ | ⟨h1, hm⟩ | ⟨h1, hm⟩
  · subst h1
    simp only [runHandler, getPerson, hm, hslice, hA, ne_eq, not_true_eq_false, if_false,
      httpError]
  · subst h1
    simp only [runHandler, updatePerson, hm, hslice, hA, ne_eq, not_true_eq_false, if_false,
      httpError]
  · subst h1
    simp only [runHandler, deletePerson, hm, hslice, hA, ne_eq, not_true_eq_false, if_false,
      httpError]

theorem runHandler_good_id (db : Db) (fault : Fault) (r : Request) (h : Handler) (i : Int)
    (hcases : (h = Handler.getPerson ∧ r.Method = "GET") ∨
      (h = Handler.updatePerson ∧ r.Method = "PUT") ∨
      (h = Handler.deletePerson ∧ r.Method = "DELETE"))
    (hslice : sliceFrom r.Path peoplePrefix.length = some (r.Path.drop peoplePrefix.length))
    (hA : Atoi (r.Path.drop peoplePrefix.length) = Except.ok i) :
    ∃ resp db', runHandler h db fault r = Outcome.reply resp db' ∧ resp.status ≠ 400 := by
  rcases hcases with ⟨h1, hm⟩ | ⟨h1, hm⟩ | ⟨h1, hm⟩
  · subst h1
    simp only [runHandler, getPerson, hm, hslice, hA, ne_eq, not_true_eq_false, if_false]
    rcases selectById_cases db fault i with ⟨hs, _⟩ | ⟨hs, _⟩ | ⟨p, hs, _⟩
    · rw [hs]; exact ⟨_, _, rfl, by decide⟩
    · rw [hs]; exact ⟨_, _, rfl, by decide⟩
    · rw [hs]; exact ⟨_, _, rfl, by simp [jsonResponse]⟩
  · subst h1
    simp only [runHandler, updatePerson, hm, hslice, hA, ne_eq, not_true_eq_false, if_false]
    cases execUpdate db fault r.Body.Name r.Body.Email i with
    | error e => exact ⟨_, _, rfl, by decide⟩
    | ok db' => exact ⟨_, _, rfl, by simp [jsonResponse]⟩
  · subst h1
    simp only [runHandler, deletePerson, hm, hslice, hA, ne_eq, not_true_eq_false, if_false]
    cases execDelete db fault i with
    | error e => exact ⟨_, _, rfl, by decide⟩
    | ok db' => exact ⟨_, _, rfl, by decide⟩

/-- C5: for a request the router hands to `getPerson`, `updatePerson` or `deletePerson`, the
text of the path after the prefix `/people/` decides the 400: the handler answers, and its
status is 400 exactly when `Atoi` rejects the text, in which case the answer is the 400
"Invalid ID" and the table is untouched; a text that is a decimal integer in range is never
answered 400; and `Atoi` rejects `abc`, `1/2` and `12x`. -/
theorem invalid_id_bad_request (db : Db) (fault : Fault) (r : Request) (h : Handler)
    (hroute : serveMux r = Route.call h)
    (hh : h = Handler.getPerson ∨ h = Handler.updatePerson ∨ h = Handler.deletePerson) :
    r.Path = peoplePrefix ++ r.Path.drop peoplePrefix.length ∧
      (∃ resp db', runHandler h db fault r = Outcome.reply resp db' ∧
        (resp.status = 400 ↔
          ∃ e, Atoi (r.Path.drop peoplePrefix.length) = Except.error e)) ∧
      ((∃ e, Atoi (r.Path.drop peoplePrefix.length) = Except.error e) →
        runHandler h db fault r =
          Outcome.reply ⟨400, some "text/plain; charset=utf-8", Body.text "Invalid ID"⟩ db) ∧
      (IsDecimalInt64 (r.Path.drop peoplePrefix.length) →
        ∃ resp db', runHandler h db fault r = Outcome.reply resp db' ∧ resp.status ≠ 400) ∧
      Atoi (ascii "abc") = Except.error NumError.ErrSyntax ∧
      Atoi (ascii "1/2") = Except.error NumError.ErrSyntax ∧
      Atoi (ascii "12x") = Except.error NumError.ErrSyntax := by
  obtain ⟨hpre, hperson⟩ := serveMux_call_person r h hroute hh
  obtain ⟨hlen, hcases⟩ := personRoute_call r h hperson
  have hslice := sliceFrom_of_le r.Path (Nat.le_of_lt hlen)
  have hpath : r.Path = peoplePrefix ++ r.Path.drop peoplePrefix.length := by
    obtain ⟨x, hx⟩ := hpre
    rw [← hx, List.drop_left]
  refine ⟨hpath, ?_, ?_, ?_, by decide, by decide, by decide⟩
  · cases hA : Atoi (r.Path.drop peoplePrefix.length) with
    | error e =>
      exact ⟨_, _, runHandler_bad_id db fault r h e hcases hslice hA,
        fun _ => ⟨e, rfl⟩, fun _ => rfl⟩
    | ok i =>
      obtain ⟨resp, db', hrun, hst⟩ := runHandler_good_id db fault r h i hcases hslice hA
      exact ⟨resp, db', hrun, fun h400 => absurd h400 hst,
        fun ⟨e, he⟩ => absurd he (by simp)⟩
  · intro ⟨e, hA⟩
    exact runHandler_bad_id db fault r h e hcases hslice hA
  · intro ⟨sign, ds, hs, hsign, hne, hd, hle⟩
    have hA : Atoi (r.Path.drop peoplePrefix.length) = Except.ok (signedValue sign ds) := by
      rw [hs]; exact Atoi_decimal sign ds hsign hne hd hle
    exact runHandler_good_id db fault r h _ hcases hslice hA

/-- Witness of C5: a GET with the id text `abc` is answered 400, a DELETE with the id text
`-42` is not. -/
theorem invalid_id_bad_request_witness :
    getPerson ⟨[⟨1, "a", "b"⟩], 1⟩ Fault.none ⟨"GET", ascii "/people/abc", Person.zero⟩ =
        Outcome.reply ⟨400, some "text/plain; charset=utf-8", Body.text "Invalid ID"⟩
          ⟨[⟨1, "a", "b"⟩], 1⟩ ∧
      ∃ resp db', deletePerson ⟨[⟨1, "a", "b"⟩], 1⟩ Fault.none
          ⟨"DELETE", ascii "/people/-42", Person.zero⟩ = Outcome.reply resp db' ∧
        resp.status ≠ 400 :=
  ⟨(invalid_id_bad_request ⟨[⟨1, "a", "b"⟩], 1⟩ Fault.none
      ⟨"GET", ascii "/people/abc", Person.zero⟩ Handler.getPerson (by decide)
      (Or.inl rfl)).2.2.1 ⟨NumError.ErrSyntax, by decide⟩,
    (invalid_id_bad_request ⟨[⟨1, "a", "b"⟩], 1⟩ Fault.none
      ⟨"DELETE", ascii "/people/-42", Person.zero⟩ Handler.deletePerson (by decide)
      (Or.inr (Or.inr rfl))).2.2.2.1
      ⟨[45], ascii "42", by decide, Or.inr (Or.inr rfl), by decide, by decide, by decide⟩⟩

/-! ### The answers of `updatePerson` and of `getPeople` on an empty table -/

/-- C6: `PUT /people/5` on a table that holds row 5.  With a body that carries no id the
answer is the person with id 0, with a body that carries the id 9 it is the person with
id 9: the id of the answer is the one decoded from the body, not the 5 of the path, while
the row that is updated is row 5. -/
theorem updatePerson_echoes_body_id :
    updatePerson ⟨[⟨5, "a", "b"⟩], 5⟩ Fault.none ⟨"PUT", ascii "/people/5", ⟨0, "n", "e"⟩⟩ =
        Outcome.reply ⟨200, some "application/json", Body.json (Json.object ⟨0, "n", "e"⟩)⟩
          ⟨[⟨5, "n", "e"⟩], 5⟩ ∧
      updatePerson ⟨[⟨5, "a", "b"⟩], 5⟩ Fault.none ⟨"PUT", ascii "/people/5", ⟨9, "n", "e"⟩⟩ =
        Outcome.reply ⟨200, some "application/json", Body.json (Json.object ⟨9, "n", "e"⟩)⟩
          ⟨[⟨5, "n", "e"⟩], 5⟩ := by
  constructor <;> decide

/-- C8: `GET /people` on a table with no rows, the query succeeding: the answer is 200 and
its body is the JSON document `null`, which is not an array. -/
theorem getPeople_empty_is_null :
    getPeople ⟨[], 0⟩ Fault.none ⟨"GET", ascii "/people", Person.zero⟩ =
        Outcome.reply ⟨200, some "application/json", Body.json Json.null⟩ ⟨[], 0⟩ ∧
      Json.null.isArray = false ∧ Json.null ≠ Json.array [] := by
  refine ⟨by decide, rfl, by decide⟩

/-! ### Listing after creating -/

theorem scanRows_some (rows : List Person) :
    ∀ (n : Nat) (xs : List Person),
      scanRows Fault.none n rows (some xs) = Except.ok (some (xs ++ rows)) := by
  induction rows with
  | nil => intro n xs; simp [scanRows]
  | cons p ps ih =>
    intro n xs
    have h1 : ¬ (Fault.none = Fault.stream n) := by simp
    have h2 : ¬ (Fault.none = Fault.scan) := by decide
    simp only [scanRows, if_neg h1, if_neg h2, goAppend]
    rw [ih (n + 1) (xs ++ [p])]
    simp

theorem scanRows_none (rows : List Person) :
    ∃ people : PersonSlice, scanRows Fault.none 0 rows none = Except.ok people ∧
      sliceElems people = rows ∧ (rows ≠ [] → people = some rows) := by
  cases rows with
  | nil => exact ⟨none, rfl, rfl, fun h => absurd rfl h⟩
  | cons p ps =>
    have h1 : ¬ (Fault.none = Fault.stream 0) := by simp
    have h2 : ¬ (Fault.none = Fault.scan) := by decide
    refine ⟨some (p :: ps), ?_, rfl, fun _ => rfl⟩
    simp only [scanRows, if_neg h1, if_neg h2, goAppend]
    rw [scanRows_some ps (0 + 1) [p]]
    rfl

/-- What `getPeople` answers when the query, the scans and the connection hold. -/
theorem getPeople_ok (db : Db) (g : Request) (hg : g.Method = "GET") :
    ∃ people : PersonSlice,
      getPeople db Fault.none g = Outcome.reply (jsonResponse (encodePeople people)) db ∧
      sliceElems people = db.rows ∧ (db.rows ≠ [] → people = some db.rows) := by
  obtain ⟨people, hscan, helems, hsome⟩ := scanRows_none db.rows
  refine ⟨people, ?_, helems, hsome⟩
  simp only [getPeople, hg, selectAll, hscan, ne_eq, not_true_eq_false, if_false]

/-- Every call of `createPerson` replies; a reply with status 200 answers a POST and carries
the person of the row it appended, whose id no row had. -/
theorem createPerson_reply (db : Db) (fault : Fault) (r : Request) :
    ∃ resp db', createPerson db fault r = Outcome.reply resp db' ∧
      (resp.status = 200 → r.Method = "POST" ∧ ∃ id : Int,
        resp = ⟨200, some "application/json",
          Body.json (Json.object ⟨id, r.Body.Name, r.Body.Email⟩)⟩ ∧
        id ∉ db.rows.map Person.ID ∧
        db'.rows = db.rows ++ [⟨id, r.Body.Name, r.Body.Email⟩]) := by
  by_cases hm : r.Method = "POST"
  · cases hins : insertReturningId db fault r.Body.Name r.Body.Email with
    | mk res db1 =>
      cases res with
      | error e =>
        refine ⟨httpError "Failed to execute the query" 500, db1, ?_, ?_⟩
        · simp only [createPerson, hm, hins, ne_eq, not_true_eq_false, if_false]
        · intro h; exact absurd h (by decide)
      | ok id =>
        obtain ⟨_, hfresh, hdb⟩ := insertReturningId_ok db db1 fault _ _ id hins
        refine ⟨_, db1, createPerson_ok db db1 fault r id hm hins, ?_⟩
        intro _
        exact ⟨hm, id, rfl, hfresh, by rw [hdb]⟩
  · refine ⟨httpError "Method not allowed" 405, db, ?_, ?_⟩
    · simp only [createPerson, hm, ne_eq, not_false_eq_true, if_true]
    · intro h; exact absurd h (by decide)

/-- A run of creates that were all answered 200 appends one row per call, in order, each
with the name and email of its call and an id no earlier row has. -/
theorem createAll_spec (calls : List (Fault × Request)) :
    ∀ db : Db, UniqueIds db →
      (∀ resp ∈ (createAll db calls).1, resp.status = 200) →
      ∃ created : List Person,
        (createAll db calls).1 =
          created.map (fun p => (⟨200, some "application/json",
            Body.json (Json.object p)⟩ : Response)) ∧
        List.Forall₂ (fun (call : Fault × Request) (p : Person) =>
          call.2.Method = "POST" ∧ p.Name = call.2.Body.Name ∧ p.Email = call.2.Body.Email)
          calls created ∧
        (createAll db calls).2.rows = db.rows ++ created ∧
        UniqueIds (createAll db calls).2 := by
  induction calls with
  | nil =>
    intro db huniq _
    exact ⟨[], rfl, List.Forall₂.nil, by simp [createAll], huniq⟩
  | cons call calls ih =>
    intro db huniq hok
    obtain ⟨fault, r⟩ := call
    obtain ⟨resp, db1, hcp, hresp⟩ := createPerson_reply db fault r
    have heq : createAll db ((fault, r) :: calls) =
        (resp :: (createAll db1 calls).1, (createAll db1 calls).2) := by
      simp only [createAll, hcp]
    rw [heq] at hok ⊢
    have h200 : resp.status = 200 := hok resp (List.mem_cons_self _ _)
    obtain ⟨hpost, id, hr, hfresh, hrows⟩ := hresp h200
    have huniq1 : UniqueIds db1 := by
      unfold UniqueIds at huniq ⊢
      rw [hrows, List.map_append, List.nodup_append]
      refine ⟨huniq, by simp, ?_⟩
      intro a ha hb
      simp only [List.map_cons, List.map_nil, List.mem_singleton] at hb
      rw [hb] at ha
      exact hfresh ha
    obtain ⟨created, hresps, hall, hfinal, hu⟩ :=
      ih db1 huniq1 (fun x hx => hok x (List.mem_cons_of_mem _ hx))
    refine ⟨⟨id, r.Body.Name, r.Body.Email⟩ :: created, ?_, ?_, ?_, hu⟩
    · show resp :: (createAll db1 calls).1 = _
      rw [hresps, hr]
      rfl
    · exact List.Forall₂.cons ⟨hpost, rfl, rfl⟩ hall
    · show (createAll db1 calls).2.rows = _
      rw [hfinal, hrows]; simp

/-- Listing after creating: after a run of `createPerson` calls that were all answered 200,
started on a table with unique ids, there is one created person per call, in order, with
the name and email of the call; the answers of the calls are exactly these persons; a GET
handled by `getPeople` (query, scans and connection holding) is answered 200 with the
encoding of a slice whose elements are the rows of before followed by the created persons;
the ids of all of them are pairwise distinct; and when that list is not empty the body is a
JSON array. -/
theorem getPeople_after_creates (db : Db) (calls : List (Fault × Request)) (g : Request)
    (huniq : UniqueIds db) (hg : g.Method = "GET")
    (hok : ∀ resp ∈ (createAll db calls).1, resp.status = 200) :
    ∃ (created : List Person) (people : PersonSlice),
      created.length = calls.length ∧
      (createAll db calls).1 =
        created.map (fun p => (⟨200, some "application/json",
          Body.json (Json.object p)⟩ : Response)) ∧
      List.Forall₂ (fun (call : Fault × Request) (p : Person) =>
        call.2.Method = "POST" ∧ p.Name = call.2.Body.Name ∧ p.Email = call.2.Body.Email)
        calls created ∧
      getPeople (createAll db calls).2 Fault.none g =
        Outcome.reply ⟨200, some "application/json", Body.json (encodePeople people)⟩
          (createAll db calls).2 ∧
      sliceElems people = db.rows ++ created ∧
      ((db.rows ++ created).map Person.ID).Nodup ∧
      (db.rows ++ created ≠ [] → encodePeople people = Json.array (db.rows ++ created)) := by
  obtain ⟨created, hresps, hall, hfinal, hu⟩ := createAll_spec calls db huniq hok
  obtain ⟨people, hget, helems, hsome⟩ := getPeople_ok (createAll db calls).2 g hg
  refine ⟨created, people, hall.length_eq.symm, hresps, hall, hget, ?_, ?_, ?_⟩
  · rw [helems, hfinal]
  · unfold UniqueIds at hu
    rw [hfinal] at hu
    exact hu
  · intro hne
    rw [hfinal] at hsome
    rw [hsome hne]
    rfl

/-- An instance of the listing after creating: two people are created in a table that
holds row 1, then listed. -/
theorem getPeople_after_creates_example :
    ∃ (created : List Person) (people : PersonSlice),
      created.length = 2 ∧
      getPeople ⟨[⟨1, "a", "b"⟩, ⟨2, "Alice", "a@x.com"⟩, ⟨3, "Bob", "b@x.com"⟩], 3⟩
          Fault.none ⟨"GET", ascii "/people", Person.zero⟩ =
        Outcome.reply ⟨200, some "application/json", Body.json (encodePeople people)⟩
          ⟨[⟨1, "a", "b"⟩, ⟨2, "Alice", "a@x.com"⟩, ⟨3, "Bob", "b@x.com"⟩], 3⟩ ∧
      sliceElems people = [⟨1, "a", "b"⟩] ++ created :=
  have h := getPeople_after_creates ⟨[⟨1, "a", "b"⟩], 1⟩
    [(Fault.none, ⟨"POST", ascii "/people", ⟨0, "Alice", "a@x.com"⟩⟩),
      (Fault.none, ⟨"POST", ascii "/people", ⟨0, "Bob", "b@x.com"⟩⟩)]
    ⟨"GET", ascii "/people", Person.zero⟩ (by decide) rfl (by decide)
  h.elim fun created hc => hc.elim fun people hp =>
    ⟨created, people, hp.1, hp.2.2.2.1, hp.2.2.2.2.1⟩

end GoDocker
